import Mathlib

set_option maxRecDepth 8000
set_option linter.unusedVariables false

/-!
Verification development for the multi-agent research workflow
(src/workflow.py, src/agents/planner.py, src/agents/researcher.py,
src/agents/writer.py, src/agents/reviewer.py, src/providers/llm.py,
src/providers/search.py).

The language-model and search gateways are external collaborators; their
behaviour enters the model as explicit oracle outcomes (success with a
payload, a configuration error carrying a message, or an invocation
error carrying a message), exactly mirroring which Python exception each
stage catches.  Everything downstream of those outcomes is translated
from the source.
-/

/-- A raw search result as produced by the search gateway
(src/providers/search.py): a dict with keys title, url, snippet.
A missing url key is read back as the empty string by
result.get with default in researcher.py line 60. -/
structure RawResult where
  title : String
  url : String
  snippet : String
deriving DecidableEq

/-- A search result after the researcher stamped it with the index of the
plan step that produced it (researcher.py line 62). -/
structure SearchResult where
  title : String
  url : String
  snippet : String
  step_index : Nat
deriving DecidableEq

/-- The ResearchState TypedDict of src/workflow.py lines 14-43.
Messages are modelled by their content strings; the four provider
configuration fields are carried by the oracle record instead, since they
only select which gateway backend answers. -/
structure ResearchState where
  messages : List String
  query : String
  plan : List String
  results : List SearchResult
  draft : String
  final : String
  references : List String
  revised_once : Bool
deriving DecidableEq

/-- A partial state update as returned by a LangGraph node: only the keys
present in the returned dict are merged into the state, and the messages
channel is concatenated (operator.add annotation, workflow.py line 32). -/
structure Update where
  messages : List String := []
  plan : Option (List String) := none
  results : Option (List SearchResult) := none
  draft : Option String := none
  final : Option String := none
  references : Option (List String) := none
  revised_once : Option Bool := none
deriving DecidableEq

/-- LangGraph state merge: shallow merge by field name, with messages
concatenated rather than replaced (workflow.py line 32, spec section 3). -/
def applyUpdate (s : ResearchState) (u : Update) : ResearchState where
  messages := s.messages ++ u.messages
  query := s.query
  plan := u.plan.getD s.plan
  results := u.results.getD s.results
  draft := u.draft.getD s.draft
  final := u.final.getD s.final
  references := u.references.getD s.references
  revised_once := u.revised_once.getD s.revised_once

/-- Outcome of one completion-gateway interaction inside a stage:
initError is the ValueError raised by get_llm (src/providers/llm.py),
invokeError is any exception raised by chain.invoke, ok carries the
raw completion text. -/
inductive LlmOutcome where
  | initError (msg : String)
  | invokeError (msg : String)
  | ok (response : String)
deriving DecidableEq

/-- Outcome of one search-gateway call (src/providers/search.py):
configError is the ValueError for a bad or missing credential or an
unknown provider, stepError is any other exception, ok carries the
normalized result list. -/
inductive SearchOutcome where
  | configError (msg : String)
  | stepError (msg : String)
  | ok (results : List RawResult)
deriving DecidableEq

/-- Whether a search outcome is the configuration-level ValueError. -/
def isConfigError : SearchOutcome → Bool
  | .configError _ => true
  | _ => false

/-- Outcome of the completion call made by the reviewer, same taxonomy as
LlmOutcome (reviewer.py lines 47-57 and 78-111). -/
inductive ReviewOutcome where
  | initError (msg : String)
  | invokeError (msg : String)
  | ok (review : String)
deriving DecidableEq

/-- A JSON value as decoded by json.loads in the planner. -/
inductive JVal where
  | jnull
  | jbool (b : Bool)
  | jnum (n : Int)
  | jstr (s : String)
  | jarr (items : List JVal)
  | jobj (fields : List (String × JVal))

/-- Python str() applied to a json.loads value, as in the coercion of
every step to a string inside the planner (planner.py line 79).  The rendering
of nested containers is abbreviated; no verified property inspects it,
only that the coercion yields a string and preserves the item count. -/
def pyStr : JVal → String
  | .jnull => "None"
  | .jbool b => cond b "True" "False"
  | .jnum n => toString n
  | .jstr s => s
  | .jarr _ => "[...]"
  | .jobj _ => "\x7b...\x7d"

/-- Drop leading whitespace characters. -/
def dropLeadingWs : List Char → List Char
  | [] => []
  | c :: rest => if c.isWhitespace then dropLeadingWs rest else c :: rest

/-- Python str.strip(): remove whitespace from both ends. -/
def pyStrip (s : String) : String :=
  ⟨dropLeadingWs (dropLeadingWs s.data.reverse).reverse⟩

/-- Python str.split on a newline: split the character sequence at every
newline, keeping empty segments, never returning an empty list. -/
def splitOnNl : List Char → List (List Char)
  | [] => [[]]
  | c :: rest =>
    if c = '\n' then [] :: splitOnNl rest
    else
      match splitOnNl rest with
      | [] => [[c]]
      | l :: ls => (c :: l) :: ls

/-- Keep each line of the raw response stripped of surrounding
whitespace, dropping lines that strip to nothing (planner.py line 83). -/
def fallbackLines (response : String) : List String :=
  ((splitOnNl response.data).map (fun cs => pyStrip ⟨cs⟩)).filter
    (fun l => decide (l ≠ ""))

/-- Validation of a successfully decoded JSON plan (planner.py
lines 72-79): reject anything that is not a list of 2 to 5 items by
falling back to the single-element plan of the query, then coerce every
step to a string. -/
def parsedPlan (query : String) (j : JVal) : List String :=
  match j with
  | .jarr items =>
    if items.length < 2 ∨ 5 < items.length then [query] else items.map pyStr
  | _ => [query]

/-- planner_node (src/agents/planner.py).  The parsed argument is the
result of json.loads on the response: some value on success, none when
json.loads raises JSONDecodeError, in which case each non-empty stripped
line becomes a step, capped at 5 lines, with [query] as last resort. -/
def planner_node (query : String) (llm : LlmOutcome) (parsed : Option JVal) : Update :=
  match llm with
  | .initError msg =>
    { plan := some [query],
      messages := ["⚠️  Planner error: " ++ msg] }
  | .invokeError msg =>
    { plan := some [query],
      messages := ["⚠️  Planning failed, using direct query: " ++ msg] }
  | .ok response =>
    let plan :=
      match parsed with
      | some j => parsedPlan query j
      | none =>
        let lines := fallbackLines response
        if lines.isEmpty then [query] else lines.take 5
    { plan := some plan,
      messages := ["Created research plan with " ++ toString plan.length ++ " steps"] }

/-- The plan list produced by the planner (the plan key is set on every
path of planner_node). -/
def plannerPlan (query : String) (llm : LlmOutcome) (parsed : Option JVal) : List String :=
  ((planner_node query llm parsed).plan).getD []

/-- Inner loop of researcher_node (researcher.py lines 59-64): for each
raw result of one step, if its url is non-empty and unseen, stamp it
with the step index, append it to the accumulated results and mark the
url as seen. -/
def addStep : List RawResult → Nat → List String → List SearchResult →
    (List SearchResult × List String)
  | [], _, seen, acc => (acc, seen)
  | r :: rest, idx, seen, acc =>
    if r.url ≠ "" ∧ r.url ∉ seen then
      addStep rest idx (r.url :: seen) (acc ++ [⟨r.title, r.url, r.snippet, idx⟩])
    else
      addStep rest idx seen acc

/-- Outer loop of researcher_node (researcher.py lines 49-80): one search
per plan step, in order.  A configError aborts the whole stage with the
error message; a stepError skips just that step; an ok outcome is folded
through addStep.  The fixed 0.5 second pacing sleep has no effect on the
state and is not modelled. -/
def researchSteps (f : Nat → SearchOutcome) :
    List String → Nat → List String → List SearchResult →
    Except String (List SearchResult)
  | [], _, _, acc => .ok acc
  | _ :: rest, idx, seen, acc =>
    match f idx with
    | .configError msg => .error msg
    | .stepError _ => researchSteps f rest (idx + 1) seen acc
    | .ok rs =>
      let p := addStep rs idx seen acc
      researchSteps f rest (idx + 1) p.2 p.1

/-- researcher_node (src/agents/researcher.py).  f gives the outcome of
the search-gateway call for each step index. -/
def researcher_node (plan : List String) (f : Nat → SearchOutcome) : Update :=
  if plan.isEmpty then
    { results := some [], messages := ["⚠️  No research plan to execute"] }
  else
    match researchSteps f plan 0 [] [] with
    | .error msg =>
      { results := some [],
        messages := ["⚠️  Search configuration error: " ++ msg] }
    | .ok all =>
      if all.isEmpty then
        { results := some [],
          messages := ["⚠️  No search results found for any step"] }
      else
        { results := some all,
          messages := ["Found " ++ toString all.length ++ " unique results across " ++
            toString plan.length ++ " research steps"] }

/-- Reference extraction of writer_node (writer.py lines 98-106): walk
the first 20 results, appending each non-empty url not seen before. -/
def refsAux : List SearchResult → List String → List String → List String
  | [], _, acc => acc
  | r :: rest, seen, acc =>
    if r.url ≠ "" ∧ r.url ∉ seen then refsAux rest (r.url :: seen) (acc ++ [r.url])
    else refsAux rest seen acc

/-- The references list writer_node builds from a results sequence. -/
def writerReferences (results : List SearchResult) : List String :=
  refsAux (results.take 20) [] []

/-- The url column of the numbered source listing the writer puts in its
prompt (writer.py lines 61-66): entry i of this list is the url of the
source labeled with citation number i + 1. -/
def sourceUrls (results : List SearchResult) : List String :=
  (results.take 20).map (fun r => r.url)

/-- writer_node (src/agents/writer.py).  The llm argument is the outcome
of building the chain and invoking it on the prompt. -/
def writer_node (query : String) (results : List SearchResult) (llm : LlmOutcome) : Update :=
  if results.isEmpty then
    { draft := some "No research results available to synthesize.",
      references := some [],
      messages := ["⚠️  No results to write about"] }
  else
    match llm with
    | .initError msg =>
      { draft := some ("Error: Could not initialize LLM - " ++ msg),
        references := some [],
        messages := ["⚠️  Writer error: " ++ msg] }
    | .invokeError msg =>
      { draft := some ("Error generating brief: " ++ msg),
        references := some [],
        messages := ["⚠️  Writing failed: " ++ msg] }
    | .ok response =>
      { draft := some (pyStrip response),
        references := some (writerReferences results),
        messages := ["Draft complete with " ++
          toString (writerReferences results).length ++ " references"] }

/-- Whether needle occurs at the start of hay, character by character. -/
def leadsWith : List Char → List Char → Bool
  | [], _ => true
  | _ :: _, [] => false
  | a :: as, b :: bs => a == b && leadsWith as bs

/-- Substring test modelling the Python membership operator on strings. -/
def hasSub (needle : List Char) : List Char → Bool
  | [] => needle.isEmpty
  | c :: rest => leadsWith needle (c :: rest) || hasSub needle rest

/-- The revision test of reviewer.py line 82: the marker NEEDS_REVISION
occurs in the upper-cased review text. -/
def needsRevision (review : String) : Bool :=
  hasSub "NEEDS_REVISION".data (review.data.map Char.toUpper)

/-- reviewer_node (src/agents/reviewer.py).  An empty draft short-circuits
before any gateway interaction; a gateway failure approves the draft
as-is; otherwise a needs-revision verdict with the revision budget still
unspent flips revised_once, and every other combination finalizes. -/
def reviewer_node (draft : String) (revised_once : Bool) (o : ReviewOutcome) : Update :=
  if draft = "" then
    { final := some "No draft available.",
      messages := ["⚠️  No draft to review"] }
  else
    match o with
    | .initError msg =>
      { final := some draft,
        messages := ["⚠️  Reviewer unavailable, auto-approving: " ++ msg] }
    | .invokeError msg =>
      { final := some draft,
        messages := ["⚠️  Review failed, auto-approving: " ++ msg] }
    | .ok review =>
      if needsRevision review && !revised_once then
        { revised_once := some true,
          messages := ["Requesting revision: " ++ review] }
      else
        { final := some draft,
          messages := [if needsRevision review then "Revision limit reached, finalizing"
                       else "Research complete"] }

/-- Target of the conditional edge out of the reviewer. -/
inductive Route where
  | toWriter
  | toEnd
deriving DecidableEq

/-- The conditional edge function of workflow.py lines 46-64 (source name
carries a leading underscore).  It reads the state after the update from the reviewer has been merged: END when final is set, writer when a draft
exists and revised_once is still false, END otherwise. -/
def shouldRevise (s : ResearchState) : Route :=
  if s.final ≠ "" then .toEnd
  else if s.draft ≠ "" ∧ s.revised_once = false then .toWriter
  else .toEnd

/-- The gateway behaviours of one run: the completion outcome of the planner
together with the json.loads view of its response, the per-step search
outcomes, and the per-invocation writer and reviewer outcomes (indexed
by how many times that node has run). -/
structure Oracles where
  plannerLlm : LlmOutcome
  plannerParsed : Option JVal
  search : Nat → SearchOutcome
  writerLlm : Nat → LlmOutcome
  reviewLlm : Nat → ReviewOutcome

/-- The four graph nodes of build_workflow (workflow.py lines 84-108). -/
inductive AgentNode where
  | planner
  | researcher
  | writer
  | reviewer
deriving DecidableEq

/-- Result of driving the graph: the merged final state, the sequence of
node updates in the order graph.stream yields them, and how many times
the writer and reviewer nodes ran. -/
structure RunResult where
  state : ResearchState
  updates : List Update
  writerCalls : Nat
  reviewerCalls : Nat
deriving DecidableEq

/-- LangGraph execution of the compiled graph: planner, researcher,
writer and reviewer in sequence, then the conditional edge from the
reviewer either loops to the writer or ends the run.  The fuel bounds
the number of supersteps like the LangGraph recursion limit. -/
def runFrom (o : Oracles) :
    Nat → AgentNode → ResearchState → Nat → Nat → List Update → RunResult
  | 0, _, s, wc, rc, ups => ⟨s, ups, wc, rc⟩
  | fuel + 1, n, s, wc, rc, ups =>
    match n with
    | .planner =>
      let u := planner_node s.query o.plannerLlm o.plannerParsed
      runFrom o fuel .researcher (applyUpdate s u) wc rc (ups ++ [u])
    | .researcher =>
      let u := researcher_node s.plan o.search
      runFrom o fuel .writer (applyUpdate s u) wc rc (ups ++ [u])
    | .writer =>
      let u := writer_node s.query s.results (o.writerLlm wc)
      runFrom o fuel .reviewer (applyUpdate s u) (wc + 1) rc (ups ++ [u])
    | .reviewer =>
      let u := reviewer_node s.draft s.revised_once (o.reviewLlm rc)
      let s2 := applyUpdate s u
      match shouldRevise s2 with
      | .toWriter => runFrom o fuel .writer s2 wc (rc + 1) (ups ++ [u])
      | .toEnd => ⟨s2, ups ++ [u], wc, rc + 1⟩

/-- The initial state prepared by run_research (workflow.py lines 155-168):
the query message, the query itself, empty collections, empty draft and
final, revision budget unspent. -/
def initialState (query : String) : ResearchState where
  messages := [query]
  query := query
  plan := []
  results := []
  draft := ""
  final := ""
  references := []
  revised_once := false

/-- One full run of the compiled workflow, with the default LangGraph
recursion limit of 25 supersteps as fuel. -/
def runWorkflow (query : String) (o : Oracles) : RunResult :=
  runFrom o 25 .planner (initialState query) 0 0 []

/-- run_research (workflow.py lines 151-180): graph.stream yields, per
superstep, the update dict returned by the node that ran, and the loop
keeps the last one, which run_research returns.  none models the
defensive RuntimeError for an empty stream. -/
def run_research (query : String) (o : Oracles) : Option Update :=
  (runWorkflow query o).updates.getLast?

/-- Spec section 4.3 and 4.4: first-seen deduplication of a url sequence
against a set of already-seen urls. -/
def firstSeenFrom : List String → List String → List String
  | [], _ => []
  | u :: rest, seen =>
    if u ∈ seen then firstSeenFrom rest seen
    else u :: firstSeenFrom rest (u :: seen)

/-- Drop the empty strings from a url sequence. -/
def dropEmpty : List String → List String
  | [] => []
  | u :: rest => if u = "" then dropEmpty rest else u :: dropEmpty rest

/-- Step-order concatenation of per-step result lists, each result tagged
with the index of the step that produced it, starting from a given step
index and running for a given number of steps. -/
def stepConcatAux (g : Nat → List RawResult) : Nat → Nat → List (Nat × RawResult)
  | _, 0 => []
  | idx, n + 1 => (g idx).map (fun r => (idx, r)) ++ stepConcatAux g (idx + 1) n

/-- Spec section 4.3 aggregation input: the concatenation of all per-step
results in step order, tagged with step indices. -/
def stepConcat (plan : List String) (g : Nat → List RawResult) : List (Nat × RawResult) :=
  stepConcatAux g 0 plan.length

/-- Spec-side aggregation (amended wording): global first-occurrence
deduplication by url over the tagged concatenation, dropping entries
whose url is empty, stamping each kept entry with its step tag. -/
def dedupByUrl : List (Nat × RawResult) → List String → List SearchResult
  | [], _ => []
  | (i, r) :: rest, seen =>
    if r.url ≠ "" ∧ r.url ∉ seen then
      ⟨r.title, r.url, r.snippet, i⟩ :: dedupByUrl rest (r.url :: seen)
    else dedupByUrl rest seen

/-- The seen-url set left behind by dedupByUrl. -/
def dedupSeen : List (Nat × RawResult) → List String → List String
  | [], seen => seen
  | (_, r) :: rest, seen =>
    if r.url ≠ "" ∧ r.url ∉ seen then dedupSeen rest (r.url :: seen)
    else dedupSeen rest seen

/-- Spec-side aggregation exactly as the claim states it: global
first-occurrence deduplication by url with no other filtering. -/
def dedupByUrlAll : List (Nat × RawResult) → List String → List SearchResult
  | [], _ => []
  | (i, r) :: rest, seen =>
    if r.url ∉ seen then
      ⟨r.title, r.url, r.snippet, i⟩ :: dedupByUrlAll rest (r.url :: seen)
    else dedupByUrlAll rest seen

/-- A search gateway that always succeeds with one fixed result. -/
def okSearch : Nat → SearchOutcome :=
  fun _ => .ok [⟨"T", "http://u1", "S"⟩]

/-- Fully successful gateways whose reviewer always answers with a
needs-revision verdict; the planner response text and its json.loads
view correspond (the response is valid JSON for that two-element
array). -/
def oracleReviseLoop : Oracles where
  plannerLlm := .ok "[\"step one\", \"step two\"]"
  plannerParsed := some (.jarr [.jstr "step one", .jstr "step two"])
  search := okSearch
  writerLlm := fun _ => .ok "Draft text [1]"
  reviewLlm := fun _ => .ok "NEEDS_REVISION: missing citations"

/-- The same gateways with a reviewer that approves on every pass. -/
def oracleApprove : Oracles :=
  { oracleReviseLoop with reviewLlm := fun _ => .ok "APPROVED" }

/-- Three writer results where two distinct sources share one url. -/
def rsDup : List SearchResult :=
  [⟨"t1", "u", "s1", 0⟩, ⟨"t2", "u", "s2", 0⟩, ⟨"t3", "v", "s3", 0⟩]

/-- One plan step whose search returns a single result with an empty
url. -/
def planCE : List String := ["s"]

/-- The per-step result family for planCE. -/
def gCE : Nat → List RawResult := fun _ => [⟨"t", "", "x"⟩]

/-- A search gateway whose first step fails with a transient error and
whose later steps succeed. -/
def fStepFail : Nat → SearchOutcome :=
  fun i => if i = 0 then .stepError "timeout" else .ok [⟨"t", "u", "s"⟩]

/-- A search gateway that always reports a missing credential. -/
def fConfFail : Nat → SearchOutcome :=
  fun _ => .configError "BRAVE_API_KEY required"

/-- One successful step returning a result with a url and one without. -/
def fMixedUrls : Nat → SearchOutcome :=
  fun _ => .ok [⟨"t", "u", "s"⟩, ⟨"t2", "", "s2"⟩]


/-- C1 (code bug evidence): with gateways that succeed and a reviewer
that always returns a needs-revision verdict while revised_once is
false, the claim says the workflow loops from REVIEWING back to WRITING
exactly once and terminates with final set and revised_once true.  The
code instead runs the writer exactly once (zero loop-backs), ends the
run immediately after the first review, leaves final empty, and sets
revised_once true: the conditional edge reads the state after the update from the reviewer is merged, so the revised_once flag the reviewer just
set suppresses the revision route it was meant to trigger. -/
theorem c1_revision_loop_bug :
    (runWorkflow "q" oracleReviseLoop).writerCalls = 1 ∧
      (runWorkflow "q" oracleReviseLoop).state.revised_once = true ∧
      (runWorkflow "q" oracleReviseLoop).state.final = "" := by
  decide

/-- C2 (code bug evidence): the run driven by fully successful gateways
with a needs-revision first verdict reaches the terminal state with an
empty final, contradicting the claim that every such run ends with a
non-empty final and that the terminal state is reached only with final
non-empty. -/
theorem c2_empty_final_at_termination :
    (runWorkflow "q" oracleReviseLoop).state.final = "" := by
  decide

/-- C3 (code bug evidence): for a fully successful run with an approving
review, run_research returns only the last streamed node update, the one from the reviewer, whose record carries just final and messages: the plan,
results and references fields promised by the claim (and by the docstring of the function itself) are absent. -/
theorem c3_run_research_partial_update :
    run_research "q" oracleApprove =
      some { final := some "Draft text [1]", messages := ["Research complete"] } := by
  decide

theorem mem_firstSeenFrom (l : List String) :
    ∀ seen u, u ∈ firstSeenFrom l seen ↔ u ∈ l ∧ u ∉ seen := by
  induction l with
  | nil => intro seen u; simp [firstSeenFrom]
  | cons v rest ih =>
    intro seen u
    by_cases hv : v ∈ seen
    · simp only [firstSeenFrom, if_pos hv, ih, List.mem_cons]
      constructor
      · tauto
      · rintro ⟨h | h, hu⟩
        · subst h; exact absurd hv hu
        · exact ⟨h, hu⟩
    · simp only [firstSeenFrom, if_neg hv, List.mem_cons, ih]
      by_cases huv : u = v
      · subst huv; tauto
      · simp only [huv, false_or]

theorem nodup_firstSeenFrom (l : List String) :
    ∀ seen, (firstSeenFrom l seen).Nodup := by
  induction l with
  | nil => intro seen; simp [firstSeenFrom]
  | cons v rest ih =>
    intro seen
    by_cases hv : v ∈ seen
    · rw [firstSeenFrom, if_pos hv]; exact ih seen
    · rw [firstSeenFrom, if_neg hv]
      refine List.nodup_cons.mpr ⟨?_, ih _⟩
      intro hmem
      rcases (mem_firstSeenFrom rest (v :: seen) v).mp hmem with ⟨_, hns⟩
      exact hns (List.mem_cons_self v seen)

theorem firstSeenFrom_eq_self :
    ∀ (l : List String) (seen : List String), l.Nodup → (∀ u ∈ l, u ∉ seen) →
      firstSeenFrom l seen = l := by
  intro l
  induction l with
  | nil => intro seen _ _; rfl
  | cons v rest ih =>
    intro seen hnd hfresh
    have hv : v ∉ seen := hfresh v (List.mem_cons_self v rest)
    rw [firstSeenFrom, if_neg hv]
    congr 1
    refine ih _ (List.nodup_cons.mp hnd).2 ?_
    intro u hu
    have h1 : u ∉ seen := hfresh u (List.mem_cons_of_mem v hu)
    have h2 : u ≠ v := by
      rintro rfl; exact (List.nodup_cons.mp hnd).1 hu
    simp [List.mem_cons, h1, h2]

theorem mem_dropEmpty_ne :
    ∀ (l : List String) (u : String), u ∈ dropEmpty l → u ≠ "" := by
  intro l
  induction l with
  | nil => intro u hu; simp [dropEmpty] at hu
  | cons v rest ih =>
    intro u hu
    by_cases hv : v = ""
    · rw [dropEmpty, if_pos hv] at hu; exact ih u hu
    · rw [dropEmpty, if_neg hv] at hu
      rcases List.mem_cons.mp hu with h | h
      · subst h; exact hv
      · exact ih u h

theorem dropEmpty_eq_self :
    ∀ (l : List String), (∀ u ∈ l, u ≠ "") → dropEmpty l = l := by
  intro l
  induction l with
  | nil => intro _; rfl
  | cons v rest ih =>
    intro h
    rw [dropEmpty, if_neg (h v (List.mem_cons_self v rest)),
      ih (fun u hu => h u (List.mem_cons_of_mem v hu))]

theorem refsAux_spec (rs : List SearchResult) :
    ∀ seen acc, refsAux rs seen acc =
      acc ++ firstSeenFrom (dropEmpty (rs.map (fun r => r.url))) seen := by
  induction rs with
  | nil => intro seen acc; simp [refsAux, dropEmpty, firstSeenFrom]
  | cons r rest ih =>
    intro seen acc
    by_cases hu : r.url = ""
    · have hc : ¬(r.url ≠ "" ∧ r.url ∉ seen) := by simp [hu]
      have hd : dropEmpty ((r :: rest).map (fun x => x.url)) =
          dropEmpty (rest.map (fun x => x.url)) := by
        simp [dropEmpty, hu]
      rw [refsAux, if_neg hc, hd]
      exact ih seen acc
    · have hd : dropEmpty ((r :: rest).map (fun x => x.url)) =
          r.url :: dropEmpty (rest.map (fun x => x.url)) := by
        simp [dropEmpty, hu]
      by_cases hs : r.url ∈ seen
      · have hc : ¬(r.url ≠ "" ∧ r.url ∉ seen) := by simp [hs]
        rw [refsAux, if_neg hc, hd, firstSeenFrom, if_pos hs]
        exact ih seen acc
      · have hc : r.url ≠ "" ∧ r.url ∉ seen := ⟨hu, hs⟩
        rw [refsAux, if_pos hc, hd, firstSeenFrom, if_neg hs,
          ih (r.url :: seen) (acc ++ [r.url]), List.append_assoc]
        rfl

theorem addStep_spec (rs : List RawResult) (idx : Nat) :
    ∀ seen acc,
      addStep rs idx seen acc =
        (acc ++ dedupByUrl (rs.map (fun r => (idx, r))) seen,
          dedupSeen (rs.map (fun r => (idx, r))) seen) := by
  induction rs with
  | nil => intro seen acc; simp [addStep, dedupByUrl, dedupSeen]
  | cons r rest ih =>
    intro seen acc
    by_cases h : r.url ≠ "" ∧ r.url ∉ seen
    · simp only [addStep, List.map_cons, dedupByUrl, dedupSeen, if_pos h]
      rw [ih]
      simp [List.append_assoc]
    · simp only [addStep, List.map_cons, dedupByUrl, dedupSeen, if_neg h]
      exact ih seen acc

theorem dedupByUrl_append (A : List (Nat × RawResult)) :
    ∀ B seen,
      dedupByUrl (A ++ B) seen =
        dedupByUrl A seen ++ dedupByUrl B (dedupSeen A seen) := by
  induction A with
  | nil => intro B seen; simp [dedupByUrl, dedupSeen]
  | cons p rest ih =>
    intro B seen
    obtain ⟨i, r⟩ := p
    by_cases h : r.url ≠ "" ∧ r.url ∉ seen
    · simp only [List.cons_append, dedupByUrl, dedupSeen, if_pos h]
      simp [ih]
    · simp only [List.cons_append, dedupByUrl, dedupSeen, if_neg h]
      exact ih B seen

theorem researchSteps_ok (g : Nat → List RawResult) (steps : List String) :
    ∀ idx seen acc,
      researchSteps (fun i => SearchOutcome.ok (g i)) steps idx seen acc =
        .ok (acc ++ dedupByUrl (stepConcatAux g idx steps.length) seen) := by
  induction steps with
  | nil => intro idx seen acc; simp [researchSteps, stepConcatAux, dedupByUrl]
  | cons s rest ih =>
    intro idx seen acc
    show researchSteps (fun i => SearchOutcome.ok (g i)) rest (idx + 1)
        (addStep (g idx) idx seen acc).2 (addStep (g idx) idx seen acc).1 = _
    rw [addStep_spec, ih]
    have hsc : stepConcatAux g idx (s :: rest).length =
        (g idx).map (fun r => (idx, r)) ++ stepConcatAux g (idx + 1) rest.length := rfl
    rw [hsc, dedupByUrl_append]
    simp [List.append_assoc]

theorem dedupByUrl_map_url (l : List (Nat × RawResult)) :
    ∀ seen, (dedupByUrl l seen).map (fun r => r.url) =
      firstSeenFrom (dropEmpty (l.map (fun p => p.2.url))) seen := by
  induction l with
  | nil => intro seen; simp [dedupByUrl, dropEmpty, firstSeenFrom]
  | cons p rest ih =>
    intro seen
    obtain ⟨i, r⟩ := p
    by_cases hu : r.url = ""
    · have hc : ¬(r.url ≠ "" ∧ r.url ∉ seen) := by simp [hu]
      have hd : dropEmpty (((i, r) :: rest).map (fun p => p.2.url)) =
          dropEmpty (rest.map (fun p => p.2.url)) := by
        simp [dropEmpty, hu]
      rw [dedupByUrl, if_neg hc, hd]
      exact ih seen
    · have hd : dropEmpty (((i, r) :: rest).map (fun p => p.2.url)) =
          r.url :: dropEmpty (rest.map (fun p => p.2.url)) := by
        simp [dropEmpty, hu]
      by_cases hs : r.url ∈ seen
      · have hc : ¬(r.url ≠ "" ∧ r.url ∉ seen) := by simp [hs]
        rw [dedupByUrl, if_neg hc, hd, firstSeenFrom, if_pos hs]
        exact ih seen
      · have hc : r.url ≠ "" ∧ r.url ∉ seen := ⟨hu, hs⟩
        rw [dedupByUrl, if_pos hc, hd, firstSeenFrom, if_neg hs, List.map_cons]
        exact congrArg (r.url :: ·) (ih (r.url :: seen))

theorem researchSteps_skip (f : Nat → SearchOutcome) (j : Nat) (msg : String)
    (hj : f j = .stepError msg) (steps : List String) :
    ∀ idx seen acc,
      researchSteps f steps idx seen acc =
        researchSteps (fun i => if i = j then .ok [] else f i) steps idx seen acc := by
  induction steps with
  | nil => intro idx seen acc; rfl
  | cons s rest ih =>
    intro idx seen acc
    by_cases hij : idx = j
    · subst hij
      show (match f idx with
        | .configError msg => Except.error msg
        | .stepError _ => researchSteps f rest (idx + 1) seen acc
        | .ok rs =>
          researchSteps f rest (idx + 1) (addStep rs idx seen acc).2
            (addStep rs idx seen acc).1) = _
      rw [hj]
      show researchSteps f rest (idx + 1) seen acc = _
      have hrhs : (if idx = idx then SearchOutcome.ok [] else f idx) = .ok [] := by simp
      conv_rhs => rw [researchSteps]
      rw [hrhs]
      exact ih (idx + 1) seen acc
    · have hsame : (if idx = j then SearchOutcome.ok [] else f idx) = f idx := by
        simp [hij]
      conv_rhs => rw [researchSteps]
      rw [hsame]
      cases hfi : f idx with
      | configError m => rw [researchSteps, hfi]
      | stepError m => rw [researchSteps, hfi]; exact ih (idx + 1) seen acc
      | ok rs => rw [researchSteps, hfi]; exact ih (idx + 1) _ _

theorem researchSteps_config (f : Nat → SearchOutcome) (msg : String) (steps : List String) :
    ∀ idx k seen acc, k < steps.length → f (idx + k) = .configError msg →
      (∀ m, m < k → isConfigError (f (idx + m)) = false) →
      researchSteps f steps idx seen acc = .error msg := by
  induction steps with
  | nil => intro idx k seen acc hk; exact absurd hk (by simp)
  | cons s rest ih =>
    intro idx k seen acc hk hcfg hpre
    cases k with
    | zero =>
      rw [Nat.add_zero] at hcfg
      rw [researchSteps, hcfg]
    | succ m =>
      have h0 : isConfigError (f idx) = false := by
        have := hpre 0 (Nat.succ_pos m)
        rwa [Nat.add_zero] at this
      cases hfi : f idx with
      | configError m2 => rw [hfi] at h0; simp [isConfigError] at h0
      | stepError m2 =>
        rw [researchSteps, hfi]
        refine ih (idx + 1) m seen acc (by simpa using hk) ?_ ?_
        · rw [show idx + 1 + m = idx + (m + 1) by omega]; exact hcfg
        · intro m2 hm2
          rw [show idx + 1 + m2 = idx + (m2 + 1) by omega]
          exact hpre (m2 + 1) (by omega)
      | ok rs =>
        rw [researchSteps, hfi]
        refine ih (idx + 1) m _ _ (by simpa using hk) ?_ ?_
        · rw [show idx + 1 + m = idx + (m + 1) by omega]; exact hcfg
        · intro m2 hm2
          rw [show idx + 1 + m2 = idx + (m2 + 1) by omega]
          exact hpre (m2 + 1) (by omega)

theorem addStep_url_ne (rs : List RawResult) (idx : Nat) :
    ∀ seen acc, (∀ r ∈ acc, r.url ≠ "") →
      ∀ r ∈ (addStep rs idx seen acc).1, r.url ≠ "" := by
  induction rs with
  | nil => intro seen acc hacc; exact hacc
  | cons x rest ih =>
    intro seen acc hacc
    by_cases h : x.url ≠ "" ∧ x.url ∉ seen
    · rw [addStep, if_pos h]
      refine ih _ _ ?_
      intro r hr
      rcases List.mem_append.mp hr with h1 | h2
      · exact hacc r h1
      · rcases List.mem_singleton.mp h2 with rfl
        exact h.1
    · rw [addStep, if_neg h]
      exact ih seen acc hacc

theorem researchSteps_url_ne (f : Nat → SearchOutcome) (steps : List String) :
    ∀ idx seen acc out, (∀ r ∈ acc, r.url ≠ "") →
      researchSteps f steps idx seen acc = .ok out → ∀ r ∈ out, r.url ≠ "" := by
  induction steps with
  | nil =>
    intro idx seen acc out hacc hok
    rw [researchSteps] at hok
    cases hok
    exact hacc
  | cons s rest ih =>
    intro idx seen acc out hacc hok
    rw [researchSteps] at hok
    cases hfi : f idx with
    | configError m => rw [hfi] at hok; cases hok
    | stepError m =>
      rw [hfi] at hok
      exact ih (idx + 1) seen acc out hacc hok
    | ok rs =>
      rw [hfi] at hok
      exact ih (idx + 1) _ _ out (addStep_url_ne rs idx seen acc hacc) hok

/-- C4: for every results sequence given to the writer, the references
list it produces has no duplicate url and equals the first-seen-order
deduplication of the (non-empty) urls of the first 20 results. -/
theorem c4_references_nodup_first_seen (results : List SearchResult) :
    (writerReferences results).Nodup ∧
      writerReferences results =
        firstSeenFrom (dropEmpty (sourceUrls results)) [] := by
  have h : writerReferences results =
      firstSeenFrom (dropEmpty (sourceUrls results)) [] := by
    unfold writerReferences sourceUrls
    rw [refsAux_spec]
    exact List.nil_append _
  exact ⟨h ▸ nodup_firstSeenFrom _ _, h⟩

/-- C5 counterexample: with two distinct sources sharing one url, the
second reference is not the url of the source labeled 2 in the numbered
listing, so the claimed entrywise correspondence between references and
citation labels fails on duplicate-url inputs. -/
theorem c5_counterexample :
    1 < (writerReferences rsDup).length ∧
      (writerReferences rsDup).get? 1 ≠ (sourceUrls rsDup).get? 1 := by
  decide

/-- C5 (amended): when the urls of the first-20 window are non-empty and
pairwise distinct, as the research stage guarantees for its output, the
references list equals the url column of the numbered source listing, so
the i-th reference is the url of the source labeled i. -/
theorem c5_references_match_listing (results : List SearchResult)
    (hne : ∀ r ∈ results.take 20, r.url ≠ "")
    (hnd : (sourceUrls results).Nodup) :
    writerReferences results = sourceUrls results := by
  have hurls : ∀ u ∈ sourceUrls results, u ≠ "" := by
    intro u hu
    rcases List.mem_map.mp hu with ⟨r, hr, rfl⟩
    exact hne r hr
  unfold writerReferences
  rw [refsAux_spec, List.nil_append,
    show (results.take 20).map (fun r => r.url) = sourceUrls results from rfl,
    dropEmpty_eq_self _ hurls]
  exact firstSeenFrom_eq_self _ _ hnd (by intro u _; exact List.not_mem_nil u)

theorem c5_witness :
    (∀ r ∈ ([⟨"t", "u", "s", 0⟩] : List SearchResult).take 20, r.url ≠ "") ∧
      (sourceUrls [⟨"t", "u", "s", 0⟩]).Nodup ∧
      writerReferences [⟨"t", "u", "s", 0⟩] = sourceUrls [⟨"t", "u", "s", 0⟩] :=
  ⟨by decide, by decide, c5_references_match_listing _ (by decide) (by decide)⟩

/-- C6 counterexample: the raw response is a single line that is not
valid JSON, so the line fallback yields a one-element plan different
from the single-element plan of the query, refuting the claim that
every plan has 2 to 5 items or equals that fallback plan. -/
theorem c6_counterexample :
    ¬ ((2 ≤ (plannerPlan "q" (.ok "just one step") none).length ∧
          (plannerPlan "q" (.ok "just one step") none).length ≤ 5) ∨
        plannerPlan "q" (.ok "just one step") none = ["q"]) := by
  decide

/-- C6 (amended): every plan the planner returns has 1 to 5 items, and
whenever the strict JSON parse succeeded, the plan has 2 to 5 items or
equals the single-element plan of the query (any parsed step count
outside 2..5 falls back to that plan); the line fallback for unparsable
responses may additionally produce a single parsed line.  Every step is
a string by construction of the coercion. -/
theorem c6_plan_size (query : String) (llm : LlmOutcome) (parsed : Option JVal) :
    (1 ≤ (plannerPlan query llm parsed).length ∧
        (plannerPlan query llm parsed).length ≤ 5) ∧
      (∀ j, parsed = some j →
        (2 ≤ (plannerPlan query llm parsed).length ∧
            (plannerPlan query llm parsed).length ≤ 5) ∨
          plannerPlan query llm parsed = [query]) := by
  cases llm with
  | initError msg => simp [plannerPlan, planner_node]
  | invokeError msg => simp [plannerPlan, planner_node]
  | ok response =>
    cases parsed with
    | none =>
      refine ⟨?_, by intro j hj; cases hj⟩
      by_cases hL : (fallbackLines response).isEmpty
      · simp [plannerPlan, planner_node, hL]
      · have h1 : 0 < (fallbackLines response).length := by
          cases hcase : fallbackLines response with
          | nil => rw [hcase] at hL; simp at hL
          | cons a l => simp [hcase]
        simp only [plannerPlan, planner_node, hL, if_false, Bool.false_eq_true,
          Option.getD_some, List.length_take]
        omega
    | some j =>
      cases j with
      | jarr items =>
        by_cases hlen : items.length < 2 ∨ 5 < items.length
        · constructor
          · simp [plannerPlan, planner_node, parsedPlan, hlen]
          · intro j2 hj2
            right
            simp [plannerPlan, planner_node, parsedPlan, hlen]
        · push_neg at hlen
          constructor
          · simp only [plannerPlan, planner_node, parsedPlan, if_neg
              (by omega : ¬(items.length < 2 ∨ 5 < items.length)),
              Option.getD_some, List.length_map]
            omega
          · intro j2 hj2
            left
            simp only [plannerPlan, planner_node, parsedPlan, if_neg
              (by omega : ¬(items.length < 2 ∨ 5 < items.length)),
              Option.getD_some, List.length_map]
            omega
      | jnull => simp [plannerPlan, planner_node, parsedPlan]
      | jbool b => simp [plannerPlan, planner_node, parsedPlan]
      | jnum n => simp [plannerPlan, planner_node, parsedPlan]
      | jstr s => simp [plannerPlan, planner_node, parsedPlan]
      | jobj fields => simp [plannerPlan, planner_node, parsedPlan]

theorem c6_witness :
    (1 ≤ (plannerPlan "q" (.ok "[\"a\", \"b\"]")
          (some (.jarr [.jstr "a", .jstr "b"]))).length ∧
        (plannerPlan "q" (.ok "[\"a\", \"b\"]")
          (some (.jarr [.jstr "a", .jstr "b"]))).length ≤ 5) ∧
      ((2 ≤ (plannerPlan "q" (.ok "[\"a\", \"b\"]")
            (some (.jarr [.jstr "a", .jstr "b"]))).length ∧
          (plannerPlan "q" (.ok "[\"a\", \"b\"]")
            (some (.jarr [.jstr "a", .jstr "b"]))).length ≤ 5) ∨
        plannerPlan "q" (.ok "[\"a\", \"b\"]")
          (some (.jarr [.jstr "a", .jstr "b"])) = ["q"]) :=
  ⟨(c6_plan_size "q" (.ok "[\"a\", \"b\"]") (some (.jarr [.jstr "a", .jstr "b"]))).1,
    (c6_plan_size "q" (.ok "[\"a\", \"b\"]") (some (.jarr [.jstr "a", .jstr "b"]))).2
      (.jarr [.jstr "a", .jstr "b"]) rfl⟩

theorem researcher_node_ok_results (plan : List String) (g : Nat → List RawResult) :
    (researcher_node plan (fun i => .ok (g i))).results =
      some (dedupByUrl (stepConcatAux g 0 plan.length) []) := by
  unfold researcher_node
  cases plan with
  | nil => rfl
  | cons s rest =>
    rw [researchSteps_ok g (s :: rest) 0 [] [], List.nil_append,
      if_neg (show ¬((s :: rest).isEmpty = true) by simp)]
    dsimp only
    by_cases hD : (dedupByUrl (stepConcatAux g 0 (s :: rest).length) []).isEmpty = true
    · rw [if_pos hD]
      have hDe : dedupByUrl (stepConcatAux g 0 (s :: rest).length) [] = [] := by
        cases hcase : dedupByUrl (stepConcatAux g 0 (s :: rest).length) [] with
        | nil => rfl
        | cons a l => rw [hcase] at hD; simp at hD
      rw [hDe]
    · rw [if_neg hD]

/-- C7 counterexample: one step whose single result has an empty url.
The research stage aggregates nothing, while the step-order
concatenation deduplicated by url exactly as the claim words it keeps
that entry, so the claimed equality fails: the code additionally drops
entries whose url is empty. -/
theorem c7_counterexample :
    (researcher_node planCE (fun i => .ok (gCE i))).results ≠
      some (dedupByUrlAll (stepConcat planCE gCE) []) := by
  decide

/-- C7 (amended): for every plan and per-step result family, the
aggregated results are the step-order concatenation, with empty-url
entries dropped, deduplicated globally by url keeping the first
occurrence stamped with its step index; consequently the url column of the aggregate is the first-seen-order list of distinct non-empty urls of
the concatenation — a list without duplicates — so the aggregated
length equals the number of distinct non-empty urls. -/
theorem c7_aggregation (plan : List String) (g : Nat → List RawResult) :
    (researcher_node plan (fun i => .ok (g i))).results =
        some (dedupByUrl (stepConcat plan g) []) ∧
      (dedupByUrl (stepConcat plan g) []).map (fun r => r.url) =
        firstSeenFrom (dropEmpty ((stepConcat plan g).map (fun p => p.2.url))) [] ∧
      (dedupByUrl (stepConcat plan g) []).length =
        (firstSeenFrom (dropEmpty ((stepConcat plan g).map (fun p => p.2.url))) []).length ∧
      (firstSeenFrom (dropEmpty ((stepConcat plan g).map (fun p => p.2.url))) []).Nodup := by
  have hmap : (dedupByUrl (stepConcat plan g) []).map (fun r => r.url) =
      firstSeenFrom (dropEmpty ((stepConcat plan g).map (fun p => p.2.url))) [] :=
    dedupByUrl_map_url _ _
  exact ⟨researcher_node_ok_results plan g, hmap,
    by rw [← hmap, List.length_map], nodup_firstSeenFrom _ _⟩

/-- C8: in the research stage, a per-step search failure only skips that
step — the full node output equals what it would be with that step
returning no results, so every other step still contributes — while a
configuration-level gateway error at a step no earlier config error
precedes makes the whole stage return empty results plus the
descriptive configuration warning, regardless of the outcome of any later step, and the update touches no state field besides results and
messages. -/
theorem c8_failure_isolation (plan : List String) (f : Nat → SearchOutcome)
    (j : Nat) (msg : String) :
    (f j = .stepError msg →
        researcher_node plan f =
          researcher_node plan (fun i => if i = j then .ok [] else f i)) ∧
      (j < plan.length → f j = .configError msg →
        (∀ m, m < j → isConfigError (f m) = false) →
        researcher_node plan f =
          { results := some [],
            messages := ["⚠️  Search configuration error: " ++ msg] }) := by
  constructor
  · intro hj
    unfold researcher_node
    rw [researchSteps_skip f j msg hj plan 0 [] []]
  · intro hlen hcfg hpre
    have hne : ¬ plan.isEmpty = true := by
      cases plan with
      | nil => simp at hlen
      | cons s rest => simp
    unfold researcher_node
    rw [if_neg hne,
      researchSteps_config f msg plan 0 j [] [] hlen
        (by rwa [Nat.zero_add])
        (fun m hm => by rw [Nat.zero_add]; exact hpre m hm)]

theorem c8_witness :
    fStepFail 0 = .stepError "timeout" ∧
      researcher_node ["a", "b"] fStepFail =
        researcher_node ["a", "b"] (fun i => if i = 0 then .ok [] else fStepFail i) ∧
      fConfFail 0 = .configError "BRAVE_API_KEY required" ∧
      researcher_node ["a", "b"] fConfFail =
        { results := some [],
          messages := ["⚠️  Search configuration error: BRAVE_API_KEY required"] } :=
  ⟨rfl, (c8_failure_isolation ["a", "b"] fStepFail 0 "timeout").1 rfl,
    rfl,
    (c8_failure_isolation ["a", "b"] fConfFail 0 "BRAVE_API_KEY required").2
      (by decide) rfl (fun m hm => absurd hm (Nat.not_lt_zero m))⟩

/-- C9: for every non-empty draft, a reviewer-side gateway failure —
either the ValueError from get_llm or an exception from the review
invocation — never propagates (the embedded node is a total function):
the stage degrades to setting final to the draft, fail-open, so review
failure cannot prevent the run from terminating with a result. -/
theorem c9_review_fail_open (draft : String) (revised : Bool) (msg : String)
    (h : draft ≠ "") :
    (reviewer_node draft revised (.initError msg)).final = some draft ∧
      (reviewer_node draft revised (.invokeError msg)).final = some draft := by
  constructor <;> simp [reviewer_node, h]

theorem c9_witness :
    ("d [1]" : String) ≠ "" ∧
      (reviewer_node "d [1]" false (.initError "no key")).final = some "d [1]" ∧
      (reviewer_node "d [1]" false (.invokeError "timeout")).final = some "d [1]" :=
  ⟨by decide, (c9_review_fail_open "d [1]" false "no key" (by decide)).1,
    (c9_review_fail_open "d [1]" false "timeout" (by decide)).2⟩

/-- C10: results with an empty url are silently dropped — every element
of the aggregate the research stage stores has a non-empty url, for any
gateway behaviour, and every entry of the references list the writer
builds is a non-empty url, whatever the incoming results contain. -/
theorem c10_nonempty_urls :
    (∀ (plan : List String) (f : Nat → SearchOutcome) (rs : List SearchResult),
        (researcher_node plan f).results = some rs → ∀ r ∈ rs, r.url ≠ "") ∧
      (∀ (results : List SearchResult) (u : String),
        u ∈ writerReferences results → u ≠ "") := by
  constructor
  · intro plan f rs h r hr
    unfold researcher_node at h
    by_cases hp : plan.isEmpty = true
    · rw [if_pos hp] at h
      injection h with h2
      subst h2
      cases hr
    · rw [if_neg hp] at h
      cases hres : researchSteps f plan 0 [] [] with
      | error msg =>
        rw [hres] at h
        injection h with h2
        subst h2
        cases hr
      | ok all =>
        rw [hres] at h
        dsimp only at h
        by_cases hall : all.isEmpty = true
        · rw [if_pos hall] at h
          injection h with h2
          subst h2
          cases hr
        · rw [if_neg hall] at h
          injection h with h2
          subst h2
          exact researchSteps_url_ne f plan 0 [] [] all
            (fun r2 hr2 => absurd hr2 (List.not_mem_nil r2)) hres r hr
  · intro results u hu
    unfold writerReferences at hu
    rw [refsAux_spec, List.nil_append] at hu
    exact mem_dropEmpty_ne _ u ((mem_firstSeenFrom _ _ u).mp hu).1

theorem c10_witness :
    (researcher_node ["a"] fMixedUrls).results = some [⟨"t", "u", "s", 0⟩] ∧
      (⟨"t", "u", "s", 0⟩ : SearchResult).url ≠ "" ∧
      writerReferences [⟨"t", "u", "s", 0⟩, ⟨"t2", "", "s2", 1⟩] = ["u"] ∧
      ("u" : String) ≠ "" :=
  ⟨by decide,
    c10_nonempty_urls.1 ["a"] fMixedUrls [⟨"t", "u", "s", 0⟩] (by decide)
      ⟨"t", "u", "s", 0⟩ (by decide),
    by decide,
    c10_nonempty_urls.2 [⟨"t", "u", "s", 0⟩, ⟨"t2", "", "s2", 1⟩] "u" (by decide)⟩
